import Mathlib

/-!
Verification of the contact-manager program (`contact list/contacts_manager.py`).

The program is shallowly embedded: Python strings are Lean `String`s, the
in-memory contact list is a `List Contact`, the backing CSV file is modelled at
the row level as a `List (List String)` (the `csv` stdlib codec is treated as a
trusted row serializer), and every interactive operation is a function from the
current state and the list of console input lines to the next state and an
outcome describing what was printed.

All character-level helpers are written as structural recursions over
`List Char` so that concrete runs reduce inside the kernel.  The string
primitives model CPython semantics on ASCII text (`str.strip`, `str.title`,
`str.lower`, `str.isalpha`, `str.isdigit`, `int(...)` parsing and the regex
used by `validate_email`).
-/

namespace ContactsManager

/-! ## Python string primitives (ASCII semantics) -/

/-- Whitespace characters recognised by Python's `str.strip`. -/
def pyWS (c : Char) : Bool :=
  c = ' ' || c = '\t' || c = '\n' || c = '\r' || c = '\x0B' || c = '\x0C'

/-- Drop leading whitespace. -/
def stripLeading : List Char → List Char
  | [] => []
  | c :: r => if pyWS c then stripLeading r else c :: r

/-- `str.strip()` on the character list: drop trailing, then leading whitespace. -/
def pyStripList (cs : List Char) : List Char :=
  stripLeading ((stripLeading cs.reverse).reverse)

/-- Python `s.strip()`. -/
def pyStrip (s : String) : String := String.mk (pyStripList s.data)

/-- ASCII lower-casing of one character (Python `str.lower` on ASCII). -/
def lowChar (c : Char) : Char :=
  if 65 ≤ c.toNat ∧ c.toNat ≤ 90 then Char.ofNat (c.toNat + 32) else c

/-- ASCII upper-casing of one character. -/
def upChar (c : Char) : Char :=
  if 97 ≤ c.toNat ∧ c.toNat ≤ 122 then Char.ofNat (c.toNat - 32) else c

/-- Python `s.lower()`. -/
def pyLower (s : String) : String := String.mk (s.data.map lowChar)

/-- Python `s.title()`: a letter is upper-cased when the previous character is
not a letter and lower-cased otherwise. -/
def pyTitleGo : Bool → List Char → List Char
  | _, [] => []
  | prevAlpha, c :: r =>
    if c.isAlpha then (if prevAlpha then lowChar c else upChar c) :: pyTitleGo true r
    else c :: pyTitleGo false r

/-- Python `s.title()`. -/
def pyTitle (s : String) : String := String.mk (pyTitleGo false s.data)

/-- Python `s.isalpha()`: non-empty and all letters. -/
def pyIsAlpha (s : String) : Bool := !s.data.isEmpty && s.data.all Char.isAlpha

/-- Python `s.isdigit()`: non-empty and all decimal digits. -/
def pyIsDigit (s : String) : Bool := !s.data.isEmpty && s.data.all Char.isDigit

/-! ### Python `int(...)` parsing

`int(s)` accepts surrounding whitespace, one optional sign and a non-empty
digit sequence in which single underscores may appear between digits. -/

/-- Digits of an integer literal after the first digit; accepts single
underscores between digits. -/
def parseDigitsGo (acc : Nat) : List Char → Option Nat
  | [] => some acc
  | '_' :: c :: r => if c.isDigit then parseDigitsGo (10 * acc + (c.toNat - 48)) r else none
  | c :: r => if c.isDigit then parseDigitsGo (10 * acc + (c.toNat - 48)) r else none

/-- A non-empty digit sequence with optional internal underscores. -/
def parseDigits : List Char → Option Nat
  | [] => none
  | c :: r => if c.isDigit then parseDigitsGo (c.toNat - 48) r else none

/-- Python `int(s)`, returning `none` when `int` raises `ValueError`. -/
def parsePyInt (s : String) : Option Int :=
  match pyStripList s.data with
  | '+' :: r => (parseDigits r).map (fun n => (n : Int))
  | '-' :: r => (parseDigits r).map (fun n => -(n : Int))
  | r => (parseDigits r).map (fun n => (n : Int))

/-! ## Validators (lines 122-136 of the source) -/

/-- `validate_name(name, allow_blank=False)`. -/
def validate_name (name : String) (allow_blank : Bool := false) : Bool :=
  if allow_blank && name = "" then true else pyIsAlpha name

/-- `validate_number(number, allow_blank=False)`:
`number.isdigit() and len(number) == 10`. -/
def validate_number (number : String) (allow_blank : Bool := false) : Bool :=
  if allow_blank && number = "" then true
  else pyIsDigit number && number.data.length = 10

/-- Regex word character `\w` (ASCII): letter, digit or underscore. -/
def wordChar (c : Char) : Bool := c.isAlphanum || c = '_'

/-- Character class `[\w\.-]` of the email regex. -/
def localChar (c : Char) : Bool := wordChar c || c = '.' || c = '-'

/-- Split a character list at every occurrence of `sep` (like `str.split(sep)`). -/
def splitOnChar (sep : Char) : List Char → List (List Char)
  | [] => [[]]
  | c :: r =>
    if c = sep then [] :: splitOnChar sep r
    else
      match splitOnChar sep r with
      | p :: ps => (c :: p) :: ps
      | [] => [[c]]

/-- Split at the last `'.'`: returns the part before it and the part after it,
or `none` when there is no dot. -/
def splitAtLastDot (cs : List Char) : Option (List Char × List Char) :=
  match cs.reverse.dropWhile (fun c => !(c = '.')) with
  | '.' :: rb => some (rb.reverse, (cs.reverse.takeWhile (fun c => !(c = '.'))).reverse)
  | _ => none

/-- Matching of the regex `[\w\.-]+@[\w\.-]+\.\w+` against a whole string.
Since `@` is in neither character class the string must contain exactly one
`@`, and since the final `\w+` cannot contain a dot, the `\.` of the pattern
must match the last dot of the domain part. -/
def emailCore (cs : List Char) : Bool :=
  match splitOnChar '@' cs with
  | [localPart, domain] =>
    decide (localPart ≠ []) && localPart.all localChar &&
      (match splitAtLastDot domain with
       | some (before, tld) =>
         decide (before ≠ []) && before.all localChar &&
           decide (tld ≠ []) && tld.all wordChar
       | none => false)
  | _ => false

/-- An unanchored-at-the-end quirk of Python's `$`: it also matches just before
a single newline at the very end of the string, so `re.match` drops at most one
trailing `'\n'` before requiring the pattern to span the whole input. -/
def dropFinalNewline (cs : List Char) : List Char :=
  if cs.getLast? = some '\n' then cs.dropLast else cs

/-- `validate_email(email, allow_blank=False)`:
`re.match(r"^[\w\.-]+@[\w\.-]+\.\w+$", email) is not None`. -/
def validate_email (email : String) (allow_blank : Bool := false) : Bool :=
  if allow_blank && email = "" then true
  else emailCore (dropFinalNewline email.data)

/-! ## Data model -/

/-- One stored record: the dict written/read through `csv.DictWriter/DictReader`
with the five fixed columns. -/
structure Contact where
  first_name : String
  middle_name : String
  last_name : String
  number : String
  email : String
deriving DecidableEq, Repr, Inhabited

/-- `FIELDNAMES = ["first_name", "middle_name", "last_name", "number", "email"]`. -/
def FIELDNAMES : List String :=
  ["first_name", "middle_name", "last_name", "number", "email"]

/-- The full display name `f"{first} {middle} {last}".strip()`. -/
def fullNameOf (c : Contact) : String :=
  pyStrip (c.first_name ++ " " ++ c.middle_name ++ " " ++ c.last_name)

/-- The case-insensitive full-name key used by the duplicate check and the
sort order: `f"{first} {middle} {last}".strip().lower()`. -/
def nameKey (c : Contact) : String := pyLower (fullNameOf c)

/-- The spec's §3 invariant: the trimmed, case-insensitive full name is unique
across all contacts. -/
def uniqueNames (contacts : List Contact) : Prop :=
  (contacts.map nameKey).Nodup

instance : DecidablePred uniqueNames := fun contacts =>
  inferInstanceAs (Decidable (contacts.map nameKey).Nodup)

/-- Program state: the in-memory list `contacts` and the backing file.  The
file is modelled at the row level (`csv` is a trusted codec): the first row is
the header, each following row is one record's five fields. -/
structure St where
  contacts : List Contact
  file : List (List String)
deriving DecidableEq, Repr

/-- The row `csv.DictWriter` emits for one contact. -/
def toRow (c : Contact) : List String :=
  [c.first_name, c.middle_name, c.last_name, c.number, c.email]

/-- The dict `csv.DictReader` builds from one data row. -/
def ofRow (row : List String) : Contact :=
  ⟨row.getD 0 "", row.getD 1 "", row.getD 2 "", row.getD 3 "", row.getD 4 ""⟩

/-- `save_contacts()` (lines 39-49): rewrite the whole file, header first, one
row per contact, in collection order. -/
def save_contacts (st : St) : St :=
  ⟨st.contacts, FIELDNAMES :: st.contacts.map toRow⟩

/-- Outcome of `load_contacts()`: either the rows parsed, or the
"Invalid CSV format" message path (a normal return, not an exception). -/
inductive LoadResult
  | ok
  | formatError
deriving DecidableEq, Repr

/-- `load_contacts()` (lines 21-36): clear the collection; if the header row
differs from `FIELDNAMES` print the format message and return with the
collection left empty, otherwise append one contact per data row. -/
def load_contacts (file : List (List String)) : List Contact × LoadResult :=
  match file with
  | header :: rows =>
    if header = FIELDNAMES then (rows.map ofRow, .ok) else ([], .formatError)
  | [] => ([], .formatError)

/-- `load_contacts` as a state operation: it only reads the file, never
writes or repairs it. -/
def loadOp (st : St) : St × LoadResult :=
  (⟨(load_contacts st.file).1, st.file⟩, (load_contacts st.file).2)

/-! ## The sorted listing shared by View / Delete / Edit

Python sorts with `sorted(contacts, key=lambda c: full_name(c).lower())`, a
stable ascending sort comparing key strings by code points.  We sort the
enumerated list `(index, contact)` with ties broken by the original index,
which is exactly the stable result; keeping the index also models the fact
that Edit mutates the selected element of the original list in place. -/

/-- Code-point lexicographic `<` on strings (CPython string comparison). -/
def charListLT : List Char → List Char → Bool
  | _, [] => false
  | [], _ :: _ => true
  | a :: as, b :: bs =>
    decide (a.toNat < b.toNat) || (decide (a.toNat = b.toNat) && charListLT as bs)

/-- Sort comparator on enumerated contacts: by case-insensitive full-name key,
ties by original position (= stability of Python's sort). -/
def pairLE (p q : Nat × Contact) : Bool :=
  charListLT (nameKey p.2).data (nameKey q.2).data ||
    (!(charListLT (nameKey q.2).data (nameKey p.2).data) && decide (p.1 ≤ q.1))

/-- `pairLE` as a relation for `List.insertionSort`. -/
def sortRel (p q : Nat × Contact) : Prop := pairLE p q = true

instance : DecidableRel sortRel := fun p q => Bool.decEq (pairLE p q) true

/-- `sorted(contacts, key=...)` together with each element's original index. -/
def sortedEnum (contacts : List Contact) : List (Nat × Contact) :=
  contacts.enum.insertionSort sortRel

/-- The sorted listing the user indexes into. -/
def sortedContacts (contacts : List Contact) : List Contact :=
  (sortedEnum contacts).map Prod.snd

/-! ## Add Contact (lines 63-120) -/

/-- Outcome of one run of `add_contact`. -/
inductive AddOutcome
  | added (c : Contact)
  | dupName
  | dupNumber
  | dupEmail
  | outOfInput
deriving DecidableEq, Repr

/-- A name prompt loop: re-prompt until `input(...).strip().title()` passes
`validate_name`; returns the accepted value and the remaining input lines. -/
def readName (allow_blank : Bool) : List String → Option (String × List String)
  | [] => none
  | i :: rest =>
    let v := pyTitle (pyStrip i)
    if validate_name v allow_blank then some (v, rest) else readName allow_blank rest

/-- The phone prompt loop: re-prompt while the format is invalid; on a valid
number that another contact already has, return the whole operation
(`some (none, _)`), otherwise accept it. -/
def readNumber (contacts : List Contact) : List String → Option (Option String × List String)
  | [] => none
  | i :: rest =>
    let n := pyStrip i
    if !(validate_number n) then readNumber contacts rest
    else if contacts.any (fun c => decide (c.number = n)) then some (none, rest)
    else some (some n, rest)

/-- The email prompt loop, with the case-insensitive duplicate check. -/
def readEmail (contacts : List Contact) : List String → Option (Option String × List String)
  | [] => none
  | i :: rest =>
    let e := pyStrip i
    if !(validate_email e) then readEmail contacts rest
    else if contacts.any (fun c => decide (pyLower c.email = pyLower e)) then some (none, rest)
    else some (some e, rest)

/-- `add_contact()` over a list of console input lines. -/
def add_contact (st : St) (inputs : List String) : St × AddOutcome :=
  match readName false inputs with
  | none => (st, .outOfInput)
  | some (first_name, r1) =>
    match readName true r1 with
    | none => (st, .outOfInput)
    | some (middle_name, r2) =>
      match readName false r2 with
      | none => (st, .outOfInput)
      | some (last_name, r3) =>
        let full_name := pyStrip (first_name ++ " " ++ middle_name ++ " " ++ last_name)
        if (st.contacts.map nameKey).contains (pyLower full_name) then (st, .dupName)
        else
          match readNumber st.contacts r3 with
          | none => (st, .outOfInput)
          | some (none, _) => (st, .dupNumber)
          | some (some number, r4) =>
            match readEmail st.contacts r4 with
            | none => (st, .outOfInput)
            | some (none, _) => (st, .dupEmail)
            | some (some email, _) =>
              let c : Contact := ⟨first_name, middle_name, last_name, number, email⟩
              (save_contacts ⟨st.contacts ++ [c], st.file⟩, .added c)

/-! ## View Contacts (lines 139-164) -/

/-- The index-selection loop of View: re-prompt on non-numeric input or an
out-of-range index until a valid 1-based index into the sorted listing is
given. -/
def viewSelect (s : List Contact) : List String → Option Contact
  | [] => none
  | i :: rest =>
    match parsePyInt i with
    | none => viewSelect s rest
    | some k =>
      if 1 ≤ k ∧ k ≤ (s.length : Int) then some (s.getD (k - 1).toNat default)
      else viewSelect s rest

/-- `view_contacts()`: returns the unchanged state, the sorted name listing,
and the detail row (full name, number, email) printed by
`print_contacts([selected])` for the selected contact, if any. -/
def view_contacts (st : St) (inputs : List String) :
    St × List String × Option (String × String × String) :=
  if st.contacts.isEmpty then (st, [], none)
  else
    let s := sortedContacts st.contacts
    (st, s.map fullNameOf,
      (viewSelect s inputs).map (fun c => (fullNameOf c, c.number, c.email)))

/-! ## Delete Contact (lines 166-199) -/

/-- The Delete loop: re-prompt on non-numeric or out-of-range input; on a
valid selection read the confirmation once, delete (`contacts.remove`, i.e.
first value-equal element) and save only when `confirm.strip().lower() == "y"`,
and in every case stop after one selection + confirmation decision.  Returns
whether a deletion happened. -/
def deleteLoop (st : St) : List String → St × Bool
  | [] => (st, false)
  | i :: rest =>
    match parsePyInt i with
    | none => deleteLoop st rest
    | some k =>
      if 1 ≤ k ∧ k ≤ (st.contacts.length : Int) then
        match rest with
        | [] => (st, false)
        | conf :: _ =>
          let target := (sortedContacts st.contacts).getD (k - 1).toNat default
          if pyLower (pyStrip conf) = "y" then
            (save_contacts ⟨st.contacts.erase target, st.file⟩, true)
          else (st, false)
      else deleteLoop st rest

/-- `delete_contact()`. -/
def delete_contact (st : St) (inputs : List String) : St × Bool :=
  if st.contacts.isEmpty then (st, false) else deleteLoop st inputs

/-! ## Edit Contact (lines 202-293) -/

/-- Outcome of one run of `edit_contact`. -/
inductive EditOutcome
  | finished
  | invalidIndex
  | noContacts
  | outOfInput
deriving DecidableEq, Repr

/-- Mutate the selected record (the element of the original list at index `t`)
and save, as each successful field edit does. -/
def editSave (st : St) (t : Nat) (f : Contact → Contact) : St :=
  save_contacts ⟨st.contacts.set t (f (st.contacts.getD t default)), st.file⟩

/-- One field-edit attempt of Edit (the bodies of options 1-5, lines 233-283):
given the chosen option `o` and the value input line `v`, return the state
after that attempt.  A failed validation or duplicate check leaves the state
unchanged (and the caller returns to the field-choice menu); a successful edit
mutates the selected record in place and saves. -/
def editApply (st : St) (t : Nat) (o : Int) (v : String) : St :=
  if o = 1 then
    let newv := pyTitle (pyStrip v)
    if validate_name newv then editSave st t (fun c => { c with first_name := newv }) else st
  else if o = 2 then
    let newv := pyTitle (pyStrip v)
    if newv = "" || validate_name newv then
      editSave st t (fun c => { c with middle_name := newv })
    else st
  else if o = 3 then
    let newv := pyTitle (pyStrip v)
    if validate_name newv then editSave st t (fun c => { c with last_name := newv }) else st
  else if o = 4 then
    let newv := pyStrip v
    if !(validate_number newv) then st
    else if st.contacts.any (fun c =>
        decide (c.number = newv) && decide (c ≠ st.contacts.getD t default)) then st
    else editSave st t (fun c => { c with number := newv })
  else if o = 5 then
    let newv := pyStrip v
    if !(validate_email newv) then st
    else if st.contacts.any (fun c =>
        decide (pyLower c.email = pyLower newv) &&
          decide (c ≠ st.contacts.getD t default)) then st
    else editSave st t (fun c => { c with email := newv })
  else st

/-- The field-choice sub-loop of Edit (`while True:` at line 220), consuming
one console line per step.  `pending = some o` means option `o` (one of 1-5)
was chosen on the previous line and the next line is that field's value.
Every branch — including a rejected number/email value — returns to the top of
this loop, i.e. to the field-choice menu.  `t` is the index in the original
collection of the record selected for editing. -/
def editRun (st : St) (t : Nat) (pending : Option Int) : List String → St × EditOutcome
  | [] => (st, .outOfInput)
  | i :: rest =>
    match pending with
    | some o => editRun (editApply st t o i) t none rest
    | none =>
      match parsePyInt i with
      | none => editRun st t none rest
      | some o =>
        if o = 6 then (save_contacts st, .finished)
        else if 1 ≤ o ∧ o ≤ 5 then editRun st t (some o) rest
        else editRun st t none rest

/-- The Edit sub-loop started at the field-choice menu. -/
def editLoop (st : St) (t : Nat) (inputs : List String) : St × EditOutcome :=
  editRun st t none inputs

/-- `edit_contact()`: one attempt at index selection (no retry loop), then the
field-choice sub-loop on the selected record. -/
def edit_contact (st : St) (inputs : List String) : St × EditOutcome :=
  if st.contacts.isEmpty then (st, .noContacts)
  else
    match inputs with
    | [] => (st, .outOfInput)
    | i :: rest =>
      match parsePyInt i with
      | none => (st, .invalidIndex)
      | some k =>
        if 1 ≤ k ∧ k ≤ (st.contacts.length : Int) then
          let t := ((sortedEnum st.contacts).map Prod.fst).getD (k - 1).toNat 0
          editLoop st t rest
        else (st, .invalidIndex)

/-! ## Definitions used only to state claims -/

/-- Allowed character of a local-part or domain segment as listed by the spec:
"letters, digits, dot, underscore, and hyphen". -/
def specSegChar (c : Char) : Bool :=
  c.isAlpha || c.isDigit || c = '.' || c = '_' || c = '-'

/-- Word character of the final `tld` segment of the spec's displayed pattern. -/
def specWordChar (c : Char) : Bool := c.isAlpha || c.isDigit || c = '_'

/-- Modelled from the spec (§4.2): "true iff s matches pattern
`local-part@domain.sub.tld` where local-part and domain segments allow
letters, digits, dot, underscore, hyphen, and the final segment after the
last dot is non-empty", reading the final `tld` segment as a word-character
segment as displayed in the pattern.  Unlike `validate_email`, this predicate
has no provision for a trailing newline: no reading of the spec's character
classes admits one. -/
def specEmailPattern (s : String) : Bool :=
  match splitOnChar '@' s.data with
  | [localPart, domain] =>
    decide (localPart ≠ []) && localPart.all specSegChar &&
      (match splitAtLastDot domain with
       | some (before, tld) =>
         decide (before ≠ []) && before.all specSegChar &&
           decide (tld ≠ []) && tld.all specWordChar
       | none => false)
  | _ => false

/-- "x is at most y by the case-insensitive code-point order" — the ascending
order of the View/Delete/Edit listing. -/
def strLEci (x y : String) : Prop :=
  charListLT (pyLower y).data (pyLower x).data = false

/-- A concrete reachable state: two contacts added to the fresh file. -/
def st1W : St :=
  (add_contact ⟨[], [FIELDNAMES]⟩ ["Ann", "", "Roe", "1111111111", "a@x.com"]).1

/-- A concrete reachable state with two contacts, `Ann  Roe` and `Bob  Roe`. -/
def stW : St :=
  (add_contact st1W ["Bob", "", "Roe", "2222222222", "b@x.com"]).1

/-- The state after a concrete successful Add on the empty collection,
used to exercise the Add/View round trip. -/
def stC7 : St :=
  (add_contact ⟨[], [FIELDNAMES]⟩ [" john ", "", "doe", " 0123456789 ", " A@b.com "]).1

/-! ## Order lemmas for the sort comparator -/

theorem clt_asymm : ∀ a b : List Char, charListLT a b = true → charListLT b a = false := by
  intro a
  induction a with
  | nil =>
    intro b h
    cases b with
    | nil => simp [charListLT] at h
    | cons y ys => simp [charListLT]
  | cons x xs ih =>
    intro b h
    cases b with
    | nil => simp [charListLT] at h
    | cons y ys =>
      simp only [charListLT, Bool.or_eq_true, Bool.and_eq_true, decide_eq_true_eq] at h ⊢
      rcases h with h | ⟨e, r⟩
      · simp only [Bool.or_eq_false_iff, Bool.and_eq_false_iff, decide_eq_false_iff_not]
        exact ⟨by omega, Or.inl (by simpa using by omega)⟩
      · simp only [Bool.or_eq_false_iff, Bool.and_eq_false_iff, decide_eq_false_iff_not]
        exact ⟨by omega, Or.inr (ih ys r)⟩

theorem clt_trans : ∀ a b c : List Char,
    charListLT a b = true → charListLT b c = true → charListLT a c = true := by
  intro a
  induction a with
  | nil =>
    intro b c h1 h2
    cases c with
    | nil => cases b <;> simp [charListLT] at h1 h2
    | cons z zs => simp [charListLT]
  | cons x xs ih =>
    intro b c h1 h2
    cases b with
    | nil => simp [charListLT] at h1
    | cons y ys =>
      cases c with
      | nil => simp [charListLT] at h2
      | cons z zs =>
        simp only [charListLT, Bool.or_eq_true, Bool.and_eq_true, decide_eq_true_eq] at h1 h2 ⊢
        rcases h1 with h1 | ⟨e1, r1⟩
        · rcases h2 with h2 | ⟨e2, r2⟩
          · exact Or.inl (by omega)
          · exact Or.inl (by omega)
        · rcases h2 with h2 | ⟨e2, r2⟩
          · exact Or.inl (by omega)
          · exact Or.inr ⟨by omega, ih ys zs r1 r2⟩

theorem clt_tie_left : ∀ a b : List Char,
    charListLT a b = false → charListLT b a = false →
    ∀ c, charListLT a c = charListLT b c := by
  intro a
  induction a with
  | nil =>
    intro b h1 h2 c
    cases b with
    | nil => rfl
    | cons y ys => simp [charListLT] at h1
  | cons x xs ih =>
    intro b h1 h2 c
    cases b with
    | nil => simp [charListLT] at h2
    | cons y ys =>
      simp only [charListLT, Bool.or_eq_false_iff, Bool.and_eq_false_iff,
        decide_eq_false_iff_not] at h1 h2
      have e : x.toNat = y.toNat := by omega
      have r1 : charListLT xs ys = false := by
        rcases h1.2 with h | h
        · exact absurd e (by simpa using h)
        · exact h
      have r2 : charListLT ys xs = false := by
        rcases h2.2 with h | h
        · exact absurd e.symm (by simpa using h)
        · exact h
      cases c with
      | nil => rfl
      | cons z zs =>
        simp only [charListLT, e, ih ys r1 r2 zs]

theorem clt_tie_right : ∀ a b : List Char,
    charListLT a b = false → charListLT b a = false →
    ∀ c, charListLT c a = charListLT c b := by
  intro a
  induction a with
  | nil =>
    intro b h1 h2 c
    cases b with
    | nil => rfl
    | cons y ys => simp [charListLT] at h1
  | cons x xs ih =>
    intro b h1 h2 c
    cases b with
    | nil => simp [charListLT] at h2
    | cons y ys =>
      simp only [charListLT, Bool.or_eq_false_iff, Bool.and_eq_false_iff,
        decide_eq_false_iff_not] at h1 h2
      have e : x.toNat = y.toNat := by omega
      have r1 : charListLT xs ys = false := by
        rcases h1.2 with h | h
        · exact absurd e (by simpa using h)
        · exact h
      have r2 : charListLT ys xs = false := by
        rcases h2.2 with h | h
        · exact absurd e.symm (by simpa using h)
        · exact h
      cases c with
      | nil => rfl
      | cons z zs =>
        simp only [charListLT, e, ih ys r1 r2 zs]

instance : IsTotal (Nat × Contact) sortRel := by
  constructor
  intro p q
  unfold sortRel pairLE
  cases h1 : charListLT (nameKey p.2).data (nameKey q.2).data
  · cases h2 : charListLT (nameKey q.2).data (nameKey p.2).data
    · rcases Nat.le_total p.1 q.1 with h | h
      · exact Or.inl (by simp [h1, h2, h])
      · exact Or.inr (by simp [h1, h2, h])
    · exact Or.inr (by simp [h2])
  · exact Or.inl (by simp [h1])

instance : IsTrans (Nat × Contact) sortRel := by
  constructor
  intro p q r hpq hqr
  unfold sortRel pairLE at *
  simp only [Bool.or_eq_true, Bool.and_eq_true, Bool.not_eq_true',
    decide_eq_true_eq] at hpq hqr ⊢
  rcases hpq with hpq | ⟨hqp, hp1⟩
  · rcases hqr with hqr | ⟨hrq, hq1⟩
    · exact Or.inl (clt_trans _ _ _ hpq hqr)
    · cases h : charListLT (nameKey q.2).data (nameKey r.2).data
      · exact Or.inl (by rw [← clt_tie_right _ _ h hrq (nameKey p.2).data]; exact hpq)
      · exact Or.inl (clt_trans _ _ _ hpq h)
  · rcases hqr with hqr | ⟨hrq, hq1⟩
    · cases h : charListLT (nameKey p.2).data (nameKey q.2).data
      · exact Or.inl (by rw [clt_tie_left _ _ h hqp (nameKey r.2).data]; exact hqr)
      · exact Or.inl (clt_trans _ _ _ h hqr)
    · cases h1 : charListLT (nameKey p.2).data (nameKey q.2).data
      · cases h2 : charListLT (nameKey q.2).data (nameKey r.2).data
        · refine Or.inr ⟨?_, le_trans hp1 hq1⟩
          rw [clt_tie_right _ _ h1 hqp (nameKey r.2).data]
          exact hrq
        · exact Or.inl (by rw [clt_tie_left _ _ h1 hqp (nameKey r.2).data]; exact h2)
      · cases h2 : charListLT (nameKey q.2).data (nameKey r.2).data
        · exact Or.inl (by rw [← clt_tie_right _ _ h2 hrq (nameKey p.2).data]; exact h1)
        · exact Or.inl (clt_trans _ _ _ h1 h2)

/-! ## Helper lemmas -/

theorem set_getElem_self {α : Type} (l : List α) (n : Nat) (h : n < l.length) :
    l.set n l[n] = l := by
  apply List.ext_getElem
  · simp
  · intro i h1 h2
    simp only [List.getElem_set]
    split
    · rename_i he; subst he; rfl
    · rfl

/-- Updating the number or email of the record at index `t` (or any update
that keeps all three name fields) does not change the list of full-name keys. -/
theorem map_nameKey_set (l : List Contact) (t : Nat) (c' : Contact)
    (hg : nameKey c' = nameKey (l.getD t default)) :
    (l.set t c').map nameKey = l.map nameKey := by
  rcases Nat.lt_or_ge t l.length with h | h
  · have ht2 : t < (l.map nameKey).length := by simpa using h
    rw [List.map_set, hg, List.getD_eq_getElem _ _ h]
    have he : nameKey l[t] = (l.map nameKey)[t] := by simp
    rw [he, set_getElem_self]
  · rw [List.set_eq_of_length_le h]

theorem ofRow_toRow (c : Contact) : ofRow (toRow c) = c := rfl

/-- The editing target's contacts after `editSave`. -/
theorem editSave_contacts (st : St) (t : Nat) (g : Contact → Contact) :
    (editSave st t g).contacts = st.contacts.set t (g (st.contacts.getD t default)) := rfl

/-- The sorted listing is a permutation of the collection. -/
theorem sortedContacts_perm (contacts : List Contact) :
    (sortedContacts contacts).Perm contacts := by
  have h1 : (sortedEnum contacts).Perm contacts.enum :=
    List.perm_insertionSort sortRel contacts.enum
  have h2 := h1.map Prod.snd
  rwa [List.enum_map_snd] at h2

/-- `uniqueNames` survives taking a sublist of the collection. -/
theorem uniqueNames_sublist {l₁ l₂ : List Contact} (hs : l₁.Sublist l₂)
    (h : uniqueNames l₂) : uniqueNames l₁ :=
  List.Nodup.sublist (List.Sublist.map nameKey hs) h

/-- `add_contact` preserves full-name uniqueness: the appended record's key
was checked against every existing key. -/
theorem add_preserves_uniqueNames (st : St) (inputs : List String)
    (h : uniqueNames st.contacts) :
    uniqueNames (add_contact st inputs).1.contacts := by
  unfold add_contact
  repeat' split
  any_goals exact h
  all_goals dsimp only
  all_goals split
  any_goals exact h
  all_goals rename_i hc
  all_goals simp only [Bool.not_eq_true] at hc
  simp only [save_contacts, uniqueNames, List.map_append, List.nodup_append]
  refine ⟨h, by simp, ?_⟩
  intro a ha hb
  simp only [List.map_cons, List.map_nil, List.mem_cons, List.not_mem_nil, or_false] at hb
  subst hb
  simp only [nameKey, fullNameOf] at ha
  simp at hc
  simp only [List.mem_map] at ha
  rcases ha with ⟨x, hx, he⟩
  exact hc x hx he

/-- `delete_contact` preserves full-name uniqueness: it only ever removes an
element. -/
theorem delete_preserves_uniqueNames (st : St) (inputs : List String)
    (h : uniqueNames st.contacts) :
    uniqueNames (delete_contact st inputs).1.contacts := by
  unfold delete_contact
  split
  · exact h
  · induction inputs with
    | nil => exact h
    | cons i rest ih =>
      simp only [deleteLoop]
      split
      · exact ih
      · split
        · split
          · exact h
          · split
            · exact uniqueNames_sublist (List.erase_sublist _ _) h
            · exact h
        · exact ih

/-- Replacing the record at `t` with one having the same full-name key keeps
`uniqueNames`. -/
theorem uniqueNames_set (l : List Contact) (t : Nat) (c' : Contact)
    (hk : nameKey c' = nameKey (l.getD t default)) (h : uniqueNames l) :
    uniqueNames (l.set t c') := by
  unfold uniqueNames
  rw [map_nameKey_set l t c' hk]
  exact h

/-- A field-edit attempt with a non-name option (anything but 1, 2, 3)
preserves full-name uniqueness: options 4/5 only touch number/email, other
options leave the state unchanged. -/
theorem editApply_unique (st : St) (t : Nat) (o : Int) (v : String)
    (h1 : o ≠ 1) (h2 : o ≠ 2) (h3 : o ≠ 3) (h : uniqueNames st.contacts) :
    uniqueNames (editApply st t o v).contacts := by
  unfold editApply
  simp only [h1, h2, h3, reduceIte]
  split
  · split
    · exact h
    · split
      · exact h
      · rw [editSave_contacts]
        exact uniqueNames_set _ _ _ (by rfl) h
  · split
    · split
      · exact h
      · split
        · exact h
        · rw [editSave_contacts]
          exact uniqueNames_set _ _ _ (by rfl) h
    · exact h

/-- An Edit session whose inputs never select a name-field option (no input
parses to 1, 2 or 3) preserves full-name uniqueness: number and email edits
keep every full-name key. -/
theorem editRun_preserves_uniqueNames (inputs : List String) :
    ∀ (st : St) (t : Nat) (pending : Option Int),
      uniqueNames st.contacts →
      (∀ s ∈ inputs,
        parsePyInt s ≠ some 1 ∧ parsePyInt s ≠ some 2 ∧ parsePyInt s ≠ some 3) →
      (pending ≠ some 1 ∧ pending ≠ some 2 ∧ pending ≠ some 3) →
      uniqueNames (editRun st t pending inputs).1.contacts := by
  induction inputs with
  | nil =>
    intro st t pending h _ _
    simpa [editRun] using h
  | cons i rest ih =>
    intro st t pending h hno hpend
    cases pending with
    | some o =>
      rw [editRun]
      refine ih _ _ _ ?_ (fun s hs => hno s (List.mem_cons_of_mem _ hs)) (by simp)
      exact editApply_unique st t o i
        (fun he => hpend.1 (by rw [he])) (fun he => hpend.2.1 (by rw [he]))
        (fun he => hpend.2.2 (by rw [he])) h
    | none =>
      rw [editRun]
      cases hp : parsePyInt i with
      | none =>
        simp only []
        exact ih _ _ _ h (fun s hs => hno s (List.mem_cons_of_mem _ hs)) (by simp)
      | some o =>
        simp only []
        split
        · simpa [save_contacts] using h
        · split
          · refine ih _ _ _ h (fun s hs => hno s (List.mem_cons_of_mem _ hs)) ?_
            have hni := hno i (List.mem_cons_self _ _)
            rw [hp] at hni
            refine ⟨?_, ?_, ?_⟩
            · intro he
              rw [Option.some_inj] at he
              exact hni.1 (by rw [he])
            · intro he
              rw [Option.some_inj] at he
              exact hni.2.1 (by rw [he])
            · intro he
              rw [Option.some_inj] at he
              exact hni.2.2 (by rw [he])
          · exact ih _ _ _ h (fun s hs => hno s (List.mem_cons_of_mem _ hs)) (by simp)

theorem isDigit_iff (c : Char) : c.isDigit = true ↔ 48 ≤ c.toNat ∧ c.toNat ≤ 57 := by
  simp [Char.isDigit, UInt32.le_def]
  constructor
  · rintro ⟨u1, u2⟩; exact ⟨u1, u2⟩
  · rintro ⟨u1, u2⟩; exact ⟨u1, u2⟩

theorem localChar_eq_specSegChar : localChar = specSegChar := by
  funext c
  simp [localChar, wordChar, specSegChar, Char.isAlphanum,
    Bool.or_assoc, Bool.or_comm, Bool.or_left_comm]

theorem wordChar_eq_specWordChar : wordChar = specWordChar := by
  funext c
  simp [wordChar, specWordChar, Char.isAlphanum, Bool.or_assoc]

/-- The regex matcher agrees with the spec's pattern on inputs with no
trailing-newline issue. -/
theorem emailCore_eq_spec (cs : List Char) :
    emailCore cs = specEmailPattern (String.mk cs) := by
  unfold emailCore specEmailPattern
  rw [localChar_eq_specSegChar, wordChar_eq_specWordChar]

/-! ## The claims -/

/-- C3: `validate_number(s)` is true iff `s` has exactly 10 characters, all
decimal digits; false on "12345", "12345678901", "12345abcde" and true on
"0123456789". -/
theorem C3_validate_number_spec :
    (∀ s : String, validate_number s = true ↔
      (s.data.length = 10 ∧ ∀ c ∈ s.data, 48 ≤ c.toNat ∧ c.toNat ≤ 57))
  ∧ validate_number "12345" = false
  ∧ validate_number "12345678901" = false
  ∧ validate_number "12345abcde" = false
  ∧ validate_number "0123456789" = true := by
  refine ⟨?_, by decide, by decide, by decide, by decide⟩
  intro s
  unfold validate_number pyIsDigit
  simp only [Bool.false_and, Bool.false_eq_true, if_false, Bool.and_eq_true,
    Bool.not_eq_true', List.all_eq_true, decide_eq_true_eq]
  constructor
  · rintro ⟨⟨hne, hall⟩, hlen⟩
    exact ⟨hlen, fun c hc => (isDigit_iff c).1 (hall c hc)⟩
  · rintro ⟨hlen, hall⟩
    refine ⟨⟨?_, fun c hc => (isDigit_iff c).2 (hall c hc)⟩, hlen⟩
    cases hd : s.data with
    | nil => rw [hd] at hlen; simp at hlen
    | cons c cs => simp [hd]

/-- C4 counterexample: Python's `$` also matches just before a final newline,
so `validate_email "a@b.c\n"` is true although no reading of the spec's
pattern (whose characters are letters, digits, dot, underscore, hyphen and a
single `@`) admits a newline. -/
theorem C4_counterexample :
    validate_email "a@b.c\n" = true ∧ specEmailPattern "a@b.c\n" = false :=
  ⟨by decide, by decide⟩

/-- C4 (amended): `validate_email(s)` is true iff `s`, after discarding a
single trailing newline (Python `$` semantics), matches the spec's pattern;
in particular true on "x.y-z_1@sub.domain.com" and false on "no-at-sign.com"
and "a@b". -/
theorem C4_amended_email_spec :
    (∀ s : String,
      validate_email s = specEmailPattern (String.mk (dropFinalNewline s.data)))
  ∧ validate_email "x.y-z_1@sub.domain.com" = true
  ∧ validate_email "no-at-sign.com" = false
  ∧ validate_email "a@b" = false := by
  refine ⟨?_, by decide, by decide, by decide⟩
  intro s
  unfold validate_email
  simp only [Bool.false_and, Bool.false_eq_true, if_false]
  exact emailCore_eq_spec _

/-- C6: loading a file whose header row is not exactly `FIELDNAMES` leaves the
Collection empty, reports a format error (a normal return, not an exception),
and neither overwrites nor repairs the file. -/
theorem C6_bad_header_load (st : St) (header : List String) (rows : List (List String))
    (hfile : st.file = header :: rows) (hbad : header ≠ FIELDNAMES) :
    loadOp st = (⟨[], st.file⟩, .formatError) := by
  unfold loadOp load_contacts
  rw [hfile]
  simp [hbad]

/-- C6 witness: a file with header `name,phone`. -/
theorem C6_bad_header_load_witness :
    loadOp ⟨[⟨"A", "", "B", "1111111111", "a@b.c"⟩], [["name", "phone"], ["x", "y"]]⟩ =
      (⟨[], [["name", "phone"], ["x", "y"]]⟩, .formatError) :=
  C6_bad_header_load _ ["name", "phone"] [["x", "y"]] rfl (by decide)

/-- Reading back the file just written by `save_contacts` yields the saved
collection, in order. -/
theorem load_save (st : St) :
    load_contacts (save_contacts st).file = (st.contacts, .ok) := by
  unfold save_contacts load_contacts
  simp only []
  rw [if_pos trivial, List.map_map, show ofRow ∘ toRow = id from funext fun c => rfl,
    List.map_id]

/-- C10: save followed by load restores exactly the same ordered Collection. -/
theorem C10_save_load_roundtrip :
    ∀ st : St, load_contacts (save_contacts st).file = (st.contacts, .ok) :=
  load_save

/-- C2: when the three name inputs are accepted, the full name is new, and the
number input (after stripping) is a well-formed number already used by an
existing contact, the whole Add attempt is aborted with the duplicate-number
message: the Collection and the file are unchanged, nothing is saved, and the
remaining input lines are never consumed (no retry). -/
theorem C2_duplicate_number_aborts_add (st : St) (f m l n : String) (rest : List String)
    (hf : validate_name (pyTitle (pyStrip f)) = true)
    (hm : validate_name (pyTitle (pyStrip m)) true = true)
    (hl : validate_name (pyTitle (pyStrip l)) = true)
    (hname : (st.contacts.map nameKey).contains
        (pyLower (pyStrip (pyTitle (pyStrip f) ++ " " ++ pyTitle (pyStrip m) ++ " " ++
          pyTitle (pyStrip l)))) = false)
    (hn : validate_number (pyStrip n) = true)
    (hdup : (st.contacts.any fun c => decide (c.number = pyStrip n)) = true) :
    add_contact st (f :: m :: l :: n :: rest) = (st, .dupNumber) := by
  unfold add_contact
  rw [readName]
  simp only [hf, if_true]
  rw [readName]
  simp only [hm, if_true]
  rw [readName]
  simp only [hl, if_true]
  simp only [hname, Bool.false_eq_true, if_false]
  rw [readNumber]
  simp only [hn, Bool.not_true, Bool.false_eq_true, if_false, hdup, if_true]

/-- C2 witness. -/
theorem C2_duplicate_number_aborts_add_witness :
    add_contact stW ["Cid", "", "Lee", "1111111111", "c@x.com", "junk"] =
      (stW, .dupNumber) :=
  C2_duplicate_number_aborts_add stW "Cid" "" "Lee" "1111111111" ["c@x.com", "junk"]
    (by decide) (by decide) (by decide) (by decide) (by decide) (by decide)

/-- C5 counterexample: in the reachable two-contact state, answering `" y"`
(which differs from `"y"` and from `"Y"`, also after lower-casing alone) to the
confirmation still deletes the contact and rewrites the file, because the code
compares `confirm.strip().lower()` — so the claim's "any answer other than y
(case-insensitive) leaves the Collection and file unchanged" is false, and the
removal condition is not an exact match. -/
theorem C5_counterexample :
    pyLower " y" ≠ "y"
  ∧ (delete_contact stW ["1", " y"]).1.contacts =
      [⟨"Bob", "", "Roe", "2222222222", "b@x.com"⟩]
  ∧ (delete_contact stW ["1", " y"]).1.file ≠ stW.file :=
  ⟨by decide, by decide, by decide⟩

/-- C5 (amended): after a valid index selection, the contact is removed and
the file rewritten exactly when the whitespace-trimmed, lower-cased
confirmation equals "y"; any other confirmation cancels with no mutation of
Collection or file. -/
theorem C5_amended_delete_confirmation (st : St) (i conf : String)
    (rest : List String) (k : Int) (hne : st.contacts ≠ [])
    (hk : parsePyInt i = some k) (h1 : 1 ≤ k)
    (h2 : k ≤ (st.contacts.length : Int)) :
    (pyLower (pyStrip conf) ≠ "y" →
      delete_contact st (i :: conf :: rest) = (st, false))
  ∧ (pyLower (pyStrip conf) = "y" →
      delete_contact st (i :: conf :: rest) =
        (save_contacts ⟨st.contacts.erase
            ((sortedContacts st.contacts).getD (k - 1).toNat default), st.file⟩, true)) := by
  have hemp : st.contacts.isEmpty = false := by
    cases hc : st.contacts with
    | nil => exact absurd hc hne
    | cons a t => rfl
  unfold delete_contact
  simp only [hemp, Bool.false_eq_true, if_false]
  rw [deleteLoop]
  simp only [hk]
  rw [if_pos ⟨h1, h2⟩]
  constructor
  · intro hno
    simp only [hno, if_false]
  · intro hyes
    simp only [hyes, if_true]

/-- C5 witness: declining leaves the state untouched; confirming with "Y"
removes the selected contact. -/
theorem C5_amended_delete_confirmation_witness :
    delete_contact stW ["1", "no", "junk"] = (stW, false)
  ∧ (delete_contact stW ["1", "Y"]).1.contacts =
      [⟨"Bob", "", "Roe", "2222222222", "b@x.com"⟩] := by
  constructor
  · exact (C5_amended_delete_confirmation stW "1" "no" ["junk"] 1 (by decide)
      (by decide) (by decide) (by decide)).1 (by decide)
  · have h := (C5_amended_delete_confirmation stW "1" "Y" [] 1 (by decide)
      (by decide) (by decide) (by decide)).2 (by decide)
    rw [h]
    decide

/-- C9 counterexample: after a duplicate-number rejection inside Edit, the
next input line is consumed by the field-choice menu, not by a repeated number
prompt: supplying the free, valid number 3333333333 right after the rejected
duplicate leaves the selected contact's number unchanged, so "the same field
prompt re-loops" is false. -/
theorem C9_counterexample :
    validate_number "3333333333" = true
  ∧ (stW.contacts.any fun c => decide (c.number = "3333333333")) = false
  ∧ (edit_contact stW ["1", "4", "2222222222", "3333333333", "6"]).1.contacts =
      stW.contacts := by
  refine ⟨by decide, by decide, by decide⟩

/-- C9 (amended): editing the selected contact's number to a value used by a
different contact is rejected — the state (original number included) is kept
and control returns to the field-choice menu — while editing it to a valid
10-digit value used by no other contact updates the field, saves, and a
re-load of the file shows the new number. -/
theorem C9_amended_number_edit (st : St) (t : Nat) (v : String) (rest : List String)
    (hv : validate_number (pyStrip v) = true) :
    ((st.contacts.any fun c =>
        decide (c.number = pyStrip v) && decide (c ≠ st.contacts.getD t default)) = true →
      editLoop st t ("4" :: v :: rest) = editLoop st t rest)
  ∧ ((st.contacts.any fun c =>
        decide (c.number = pyStrip v) && decide (c ≠ st.contacts.getD t default)) = false →
      editLoop st t ("4" :: v :: rest) =
        editLoop (editSave st t fun c => { c with number := pyStrip v }) t rest
      ∧ (load_contacts (editSave st t fun c => { c with number := pyStrip v }).file).1 =
          st.contacts.set t { st.contacts.getD t default with number := pyStrip v }) := by
  have step : editLoop st t ("4" :: v :: rest) =
      editRun (editApply st t 4 v) t none rest := by
    unfold editLoop
    rw [editRun]
    rw [show parsePyInt "4" = some 4 from by decide]
    simp only []
    rw [if_neg (by decide), if_pos ⟨by decide, by decide⟩]
    rw [editRun]
  constructor
  · intro hdup
    rw [step]
    unfold editApply
    simp only [reduceIte, hv, Bool.not_true, Bool.false_eq_true, if_false, hdup, if_true]
    rfl
  · intro hdup
    constructor
    · rw [step]
      unfold editApply
      simp only [reduceIte, hv, Bool.not_true, Bool.false_eq_true, if_false, hdup]
      rfl
    · rw [show (editSave st t fun c => { c with number := pyStrip v }) =
          save_contacts ⟨st.contacts.set t
            { st.contacts.getD t default with number := pyStrip v }, st.file⟩ from rfl]
      rw [load_save]

/-- C9 witness: in the reachable two-contact state, a duplicate number edit is
a no-op returning to the menu, and a fresh number edit persists. -/
theorem C9_amended_number_edit_witness :
    editLoop stW 0 ["4", "2222222222", "6"] = editLoop stW 0 ["6"]
  ∧ (load_contacts (editSave stW 0 fun c => { c with number := pyStrip "3333333333" }).file).1 =
      stW.contacts.set 0 { stW.contacts.getD 0 default with number := pyStrip "3333333333" } := by
  constructor
  · exact (C9_amended_number_edit stW 0 "2222222222" ["6"] (by decide)).1 (by decide)
  · exact ((C9_amended_number_edit stW 0 "3333333333" ["6"] (by decide)).2 (by decide)).2

/-- C1 counterexample: `stW` is reachable (it is built by two Adds from the
fresh state), its full-name keys are unique, and an Edit session that changes
the first contact's first name to "Bob" — a mutation that passes the
re-validation `validate_name "Bob"` — completes normally but leaves two
contacts with the full-name key "bob  roe": Edit's name-field mutations are
never re-checked for uniqueness, so the invariant is not preserved. -/
theorem C1_counterexample :
    uniqueNames stW.contacts
  ∧ validate_name "Bob" = true
  ∧ (edit_contact stW ["1", "1", "Bob", "6"]).2 = .finished
  ∧ ¬ uniqueNames (edit_contact stW ["1", "1", "Bob", "6"]).1.contacts := by
  refine ⟨by decide, by decide, by decide, by decide⟩

/-- C1 (amended): Add and Delete preserve full-name uniqueness, and so does
any Edit session that never selects a name-field option (options 1-3); Edit's
name-field mutations themselves are only format-validated, not re-checked for
uniqueness, and can break the invariant. -/
theorem C1_amended_uniqueness_preservation :
    (∀ (st : St) (inputs : List String), uniqueNames st.contacts →
      uniqueNames (add_contact st inputs).1.contacts)
  ∧ (∀ (st : St) (inputs : List String), uniqueNames st.contacts →
      uniqueNames (delete_contact st inputs).1.contacts)
  ∧ (∀ (st : St) (t : Nat) (inputs : List String), uniqueNames st.contacts →
      (∀ s ∈ inputs,
        parsePyInt s ≠ some 1 ∧ parsePyInt s ≠ some 2 ∧ parsePyInt s ≠ some 3) →
      uniqueNames (editLoop st t inputs).1.contacts) :=
  ⟨add_preserves_uniqueNames, delete_preserves_uniqueNames,
   fun st t inputs h hno =>
     editRun_preserves_uniqueNames inputs st t none h hno (by simp)⟩

/-- C1 witness: the three preserved operations exercised on the reachable
two-contact state. -/
theorem C1_amended_uniqueness_preservation_witness :
    uniqueNames (add_contact stW ["Cid", "", "Lee", "4444444444", "c@x.com"]).1.contacts
  ∧ uniqueNames (delete_contact stW ["1", "y"]).1.contacts
  ∧ uniqueNames (editLoop stW 0 ["4", "7777777777", "6"]).1.contacts :=
  ⟨C1_amended_uniqueness_preservation.1 stW _ (by decide),
   C1_amended_uniqueness_preservation.2.1 stW _ (by decide),
   C1_amended_uniqueness_preservation.2.2 stW 0 _ (by decide) (by decide)⟩

/-- C8: for a non-empty Collection, View mutates neither the Collection nor
the file (the state passes through unchanged), its listing is the full names
of all contacts (a permutation of them) sorted ascending by the
case-insensitive full name, the selection loop skips non-numeric or
out-of-range inputs and re-prompts, and a valid 1-based index displays that
contact's full name, number and email. -/
theorem C8_view_spec (st : St) (inputs : List String) (hne : st.contacts ≠ []) :
    (view_contacts st inputs).1 = st
  ∧ (view_contacts st inputs).2.1 = (sortedContacts st.contacts).map fullNameOf
  ∧ ((view_contacts st inputs).2.1).Perm (st.contacts.map fullNameOf)
  ∧ List.Sorted strLEci (view_contacts st inputs).2.1
  ∧ (∀ i rest, (parsePyInt i = none ∨
      ∀ k, parsePyInt i = some k →
        ¬(1 ≤ k ∧ k ≤ ((sortedContacts st.contacts).length : Int))) →
      viewSelect (sortedContacts st.contacts) (i :: rest) =
        viewSelect (sortedContacts st.contacts) rest)
  ∧ (∀ i rest k, parsePyInt i = some k → 1 ≤ k →
      k ≤ ((sortedContacts st.contacts).length : Int) →
      (view_contacts st (i :: rest)).2.2 =
        some (fullNameOf ((sortedContacts st.contacts).getD (k - 1).toNat default),
          ((sortedContacts st.contacts).getD (k - 1).toNat default).number,
          ((sortedContacts st.contacts).getD (k - 1).toNat default).email)) := by
  have hemp : st.contacts.isEmpty = false := by
    cases hc : st.contacts with
    | nil => exact absurd hc hne
    | cons a t => rfl
  have hlist : (view_contacts st inputs).2.1 =
      (sortedContacts st.contacts).map fullNameOf := by
    unfold view_contacts
    simp [hemp]
  refine ⟨?_, hlist, ?_, ?_, ?_, ?_⟩
  · unfold view_contacts
    simp [hemp]
  · rw [hlist]
    exact (sortedContacts_perm st.contacts).map fullNameOf
  · rw [hlist]
    unfold sortedContacts
    rw [List.map_map]
    have hsorted : List.Sorted sortRel (sortedEnum st.contacts) :=
      List.sorted_insertionSort sortRel st.contacts.enum
    refine List.Pairwise.map _ ?_ hsorted
    intro p q hpq
    unfold sortRel pairLE at hpq
    simp only [Bool.or_eq_true, Bool.and_eq_true, Bool.not_eq_true',
      decide_eq_true_eq] at hpq
    show charListLT (nameKey q.2).data (nameKey p.2).data = false
    rcases hpq with h | ⟨h, _⟩
    · exact clt_asymm _ _ h
    · exact h
  · intro i rest hbad
    cases hp : parsePyInt i with
    | none => simp [viewSelect, hp]
    | some k =>
      rcases hbad with hb | hb
      · rw [hp] at hb
        exact absurd hb (by simp)
      · simp [viewSelect, hp, hb k hp]
  · intro i rest k hp h1 h2
    unfold view_contacts
    simp only [hemp, Bool.false_eq_true, if_false]
    rw [viewSelect]
    simp only [hp]
    rw [if_pos ⟨h1, h2⟩]
    rfl

/-- C8 witness: selecting index 2 of the two-contact state's sorted listing
displays Bob's detail row and leaves the state unchanged. -/
theorem C8_view_spec_witness :
    (view_contacts stW ["2"]).1 = stW
  ∧ (view_contacts stW ["2"]).2.2 = some ("Bob  Roe", "2222222222", "b@x.com") := by
  have h := C8_view_spec stW ["2"] (by decide)
  refine ⟨h.1, ?_⟩
  have h6 := h.2.2.2.2.2 "2" [] 2 (by decide) (by decide) (by decide)
  rw [h6]
  decide

/-- C7: a valid Add (every validation and uniqueness check passing) appends
exactly the contact built from the title-cased, trimmed names and the trimmed
number and email, and a View that selects the new contact's 1-based position
in the sorted listing displays exactly those field values, with View leaving
the state unchanged. -/
theorem C7_add_view_roundtrip (st : St) (f m l n e : String)
    (hf : validate_name (pyTitle (pyStrip f)) = true)
    (hm : validate_name (pyTitle (pyStrip m)) true = true)
    (hl : validate_name (pyTitle (pyStrip l)) = true)
    (hname : (st.contacts.map nameKey).contains
        (pyLower (pyStrip (pyTitle (pyStrip f) ++ " " ++ pyTitle (pyStrip m) ++ " " ++
          pyTitle (pyStrip l)))) = false)
    (hn : validate_number (pyStrip n) = true)
    (hn2 : (st.contacts.any fun c => decide (c.number = pyStrip n)) = false)
    (he : validate_email (pyStrip e) = true)
    (he2 : (st.contacts.any fun c =>
        decide (pyLower c.email = pyLower (pyStrip e))) = false) :
    add_contact st [f, m, l, n, e] =
      (save_contacts ⟨st.contacts ++
          [⟨pyTitle (pyStrip f), pyTitle (pyStrip m), pyTitle (pyStrip l),
            pyStrip n, pyStrip e⟩], st.file⟩,
       .added ⟨pyTitle (pyStrip f), pyTitle (pyStrip m), pyTitle (pyStrip l),
         pyStrip n, pyStrip e⟩)
  ∧ ∀ inp, parsePyInt inp = some
        ((((sortedContacts (st.contacts ++
            [⟨pyTitle (pyStrip f), pyTitle (pyStrip m), pyTitle (pyStrip l),
              pyStrip n, pyStrip e⟩])).indexOf
          ⟨pyTitle (pyStrip f), pyTitle (pyStrip m), pyTitle (pyStrip l),
            pyStrip n, pyStrip e⟩ : Int) + 1)) →
      view_contacts (save_contacts ⟨st.contacts ++
          [⟨pyTitle (pyStrip f), pyTitle (pyStrip m), pyTitle (pyStrip l),
            pyStrip n, pyStrip e⟩], st.file⟩) [inp] =
        (save_contacts ⟨st.contacts ++
            [⟨pyTitle (pyStrip f), pyTitle (pyStrip m), pyTitle (pyStrip l),
              pyStrip n, pyStrip e⟩], st.file⟩,
         (sortedContacts (st.contacts ++
            [⟨pyTitle (pyStrip f), pyTitle (pyStrip m), pyTitle (pyStrip l),
              pyStrip n, pyStrip e⟩])).map fullNameOf,
         some (fullNameOf (⟨pyTitle (pyStrip f), pyTitle (pyStrip m),
             pyTitle (pyStrip l), pyStrip n, pyStrip e⟩ : Contact),
           pyStrip n, pyStrip e)) := by
  constructor
  · unfold add_contact
    rw [readName]
    simp only [hf, if_true]
    rw [readName]
    simp only [hm, if_true]
    rw [readName]
    simp only [hl, if_true]
    simp only [hname, Bool.false_eq_true, if_false]
    rw [readNumber]
    simp only [hn, Bool.not_true, Bool.false_eq_true, if_false, hn2, if_false]
    rw [readEmail]
    simp only [he, Bool.not_true, Bool.false_eq_true, if_false, he2, if_false]
  · intro inp hinp
    set c : Contact := ⟨pyTitle (pyStrip f), pyTitle (pyStrip m), pyTitle (pyStrip l),
      pyStrip n, pyStrip e⟩ with hc
    set s : List Contact := sortedContacts (st.contacts ++ [c]) with hs
    have hmem : c ∈ s := ((sortedContacts_perm _).mem_iff).2 (by simp)
    have hlt := List.indexOf_lt_length.2 hmem
    have hemp : (st.contacts ++ [c]).isEmpty = false := by
      cases st.contacts <;> rfl
    unfold view_contacts
    simp only [save_contacts, hemp, Bool.false_eq_true, if_false]
    rw [viewSelect]
    simp only [hinp]
    rw [if_pos ⟨by omega,
      by show (List.indexOf c s : Int) + 1 ≤ (s.length : Int); omega⟩]
    have hidx : ((s.indexOf c : Int) + 1 - 1).toNat = s.indexOf c := by omega
    rw [hidx, List.getD_eq_getElem _ _ hlt, List.getElem_indexOf hlt]
    rfl

/-- C7 witness: adding `" john "`, `""`, `"doe"`, `" 0123456789 "`,
`" A@b.com "` to the empty collection and viewing index 1 displays the
normalized values. -/
theorem C7_add_view_roundtrip_witness :
    add_contact ⟨[], [FIELDNAMES]⟩ [" john ", "", "doe", " 0123456789 ", " A@b.com "] =
      (stC7, .added ⟨"John", "", "Doe", "0123456789", "A@b.com"⟩)
  ∧ view_contacts stC7 ["1"] =
      (stC7, ["John  Doe"], some ("John  Doe", "0123456789", "A@b.com")) := by
  have h := C7_add_view_roundtrip ⟨[], [FIELDNAMES]⟩ " john " "" "doe" " 0123456789 "
    " A@b.com " (by decide) (by decide) (by decide) (by decide) (by decide)
    (by decide) (by decide) (by decide)
  constructor
  · rw [h.1]
    decide
  · have h2 := h.2 "1" (by decide)
    rw [show save_contacts ⟨(⟨[], [FIELDNAMES]⟩ : St).contacts ++
        [⟨pyTitle (pyStrip " john "), pyTitle (pyStrip ""), pyTitle (pyStrip "doe"),
          pyStrip " 0123456789 ", pyStrip " A@b.com "⟩], (⟨[], [FIELDNAMES]⟩ : St).file⟩ =
        stC7 from by decide] at h2
    rw [h2]
    decide

end ContactsManager
